import Mathlib

/-!
Verification development for the rust_api_hub task API.

The Rust sources are shallowly embedded: Rust `String` is modelled as
`List Char` (`Str`), `usize` as `Nat`, `DateTime<Utc>` as a `Nat` clock
value supplied explicitly where the code calls `Utc::now()`, and `Uuid`
as a `Nat` (handlers receive already-parsed identifiers).  ASCII-range
behaviour of `char::to_lowercase` / `str::trim` is modelled; the claims
under study only exercise ASCII data.
-/

namespace RustApiHub

/-- Rust strings, modelled as lists of characters. -/
abbrev Str := List Char

/-- Whitespace test used by `str::trim` (ASCII subset: space, tab, LF, CR). -/
def wsb (c : Char) : Bool :=
  decide (c.toNat = 32 ∨ c.toNat = 9 ∨ c.toNat = 10 ∨ c.toNat = 13)

/-- ASCII lowercasing of a single character, as done by `char::to_lowercase`
on ASCII input. -/
def charToLower (c : Char) : Char :=
  if 65 ≤ c.toNat ∧ c.toNat ≤ 90 then Char.ofNat (c.toNat + 32) else c

/-- Model of Rust `str::to_lowercase` on ASCII data. -/
def toLowerStr (s : Str) : Str := s.map charToLower

/-- Drop trailing characters satisfying `p`. -/
def dropTrailing (p : Char → Bool) (s : Str) : Str :=
  (s.reverse.dropWhile p).reverse

/-- Model of Rust `str::trim`. -/
def trimStr (s : Str) : Str := dropTrailing wsb (s.dropWhile wsb)

/-- Model of Rust `String::len` (UTF-8 byte count). -/
def byteLen (s : Str) : Nat := (s.map Char.utf8Size).sum

/-! ### Character-level lemmas -/

theorem toNat_ofNat_of_valid {n : Nat} (h : n.isValidChar) :
    (Char.ofNat n).toNat = n := by
  unfold Char.ofNat
  rw [dif_pos h]
  rfl

theorem toNat_charToLower (c : Char) :
    (charToLower c).toNat =
      if 65 ≤ c.toNat ∧ c.toNat ≤ 90 then c.toNat + 32 else c.toNat := by
  unfold charToLower
  split
  · next h =>
    have hv : (c.toNat + 32).isValidChar := by
      unfold Nat.isValidChar
      left
      omega
    rw [toNat_ofNat_of_valid hv]
  · simp

theorem charToLower_of_not_upper {c : Char}
    (h : ¬ (65 ≤ c.toNat ∧ c.toNat ≤ 90)) : charToLower c = c := by
  unfold charToLower
  rw [if_neg h]

theorem charToLower_idem (c : Char) :
    charToLower (charToLower c) = charToLower c := by
  by_cases h : 65 ≤ c.toNat ∧ c.toNat ≤ 90
  · have h1 := toNat_charToLower c
    rw [if_pos h] at h1
    have h2 : ¬ (65 ≤ (charToLower c).toNat ∧ (charToLower c).toNat ≤ 90) := by
      omega
    exact charToLower_of_not_upper h2
  · rw [charToLower_of_not_upper h, charToLower_of_not_upper h]

theorem wsb_charToLower (c : Char) : wsb (charToLower c) = wsb c := by
  unfold wsb
  have h1 := toNat_charToLower c
  by_cases h : 65 ≤ c.toNat ∧ c.toNat ≤ 90
  · rw [if_pos h] at h1
    rw [h1]
    have ha : ¬ (c.toNat + 32 = 32 ∨ c.toNat + 32 = 9 ∨ c.toNat + 32 = 10 ∨
        c.toNat + 32 = 13) := by omega
    have hb : ¬ (c.toNat = 32 ∨ c.toNat = 9 ∨ c.toNat = 10 ∨
        c.toNat = 13) := by omega
    rw [decide_eq_false ha, decide_eq_false hb]
  · rw [if_neg h] at h1
    rw [h1]

/-! ### String-level lemmas about lowercasing and trimming -/

theorem toLowerStr_idem (s : Str) : toLowerStr (toLowerStr s) = toLowerStr s := by
  unfold toLowerStr
  induction s with
  | nil => rfl
  | cons c t ih => simp [charToLower_idem, ih]

theorem dropWhile_wsb_toLower (s : Str) :
    (toLowerStr s).dropWhile wsb = toLowerStr (s.dropWhile wsb) := by
  unfold toLowerStr
  rw [List.dropWhile_map]
  have : (wsb ∘ charToLower) = wsb := by
    funext c
    exact wsb_charToLower c
  rw [this]

theorem dropTrailing_wsb_toLower (s : Str) :
    dropTrailing wsb (toLowerStr s) = toLowerStr (dropTrailing wsb s) := by
  unfold dropTrailing
  rw [show (toLowerStr s).reverse = toLowerStr s.reverse by
        unfold toLowerStr; rw [List.map_reverse]]
  rw [dropWhile_wsb_toLower]
  unfold toLowerStr
  rw [List.map_reverse]

theorem trimStr_toLower (s : Str) :
    trimStr (toLowerStr s) = toLowerStr (trimStr s) := by
  unfold trimStr
  rw [dropWhile_wsb_toLower, dropTrailing_wsb_toLower]

/-- A list is front-clean when `dropWhile` removes nothing from it. -/
def frontClean (p : Char → Bool) (l : Str) : Prop := l.dropWhile p = l

theorem frontClean_iff (p : Char → Bool) (l : Str) :
    frontClean p l ↔ l = [] ∨ ∃ c t, l = c :: t ∧ p c = false := by
  cases l with
  | nil => simp [frontClean]
  | cons c t =>
    simp only [frontClean, List.dropWhile_cons]
    constructor
    · intro h
      right
      refine ⟨c, t, rfl, ?_⟩
      by_contra hc
      simp at hc
      rw [if_pos hc] at h
      have := congrArg List.length h
      simp at this
      have hs := (List.dropWhile_sublist (l := t) p).length_le
      omega
    · rintro (h | ⟨c', t', he, hp⟩)
      · simp at h
      · injection he with hc ht
        subst hc
        subst ht
        simp [hp]

theorem frontClean_dropWhile (p : Char → Bool) (l : Str) :
    frontClean p (l.dropWhile p) := by
  induction l with
  | nil => simp [frontClean]
  | cons c t ih =>
    by_cases h : p c
    · simpa [List.dropWhile_cons, h] using ih
    · simp at h
      rw [frontClean_iff]
      right
      exact ⟨c, t, by simp [List.dropWhile_cons, h], h⟩

theorem dropWhile_eq_drop (p : Char → Bool) (l : Str) :
    ∃ k, l.dropWhile p = l.drop k := by
  induction l with
  | nil => exact ⟨0, rfl⟩
  | cons c t ih =>
    by_cases h : p c
    · obtain ⟨k, hk⟩ := ih
      exact ⟨k + 1, by simp [List.dropWhile_cons, h, hk]⟩
    · simp at h
      exact ⟨0, by simp [List.dropWhile_cons, h]⟩

theorem dropTrailing_take (p : Char → Bool) (l : Str) :
    ∃ k, dropTrailing p l = l.take k := by
  unfold dropTrailing
  obtain ⟨k, hk⟩ := dropWhile_eq_drop p l.reverse
  refine ⟨l.length - k, ?_⟩
  rw [hk, List.reverse_drop]
  simp

theorem frontClean_dropTrailing (p : Char → Bool) (l : Str)
    (h : frontClean p l) : frontClean p (dropTrailing p l) := by
  obtain ⟨k, hk⟩ := dropTrailing_take p l
  rw [hk, frontClean_iff]
  rw [frontClean_iff] at h
  rcases h with h | ⟨c, t, he, hp⟩
  · left
    simp [h]
  · cases he
    cases k with
    | zero => left; rfl
    | succ k' => right; exact ⟨c, t.take k', by simp, hp⟩

theorem frontClean_reverse_trim (s : Str) :
    frontClean wsb (trimStr s).reverse := by
  unfold trimStr dropTrailing
  rw [List.reverse_reverse]
  exact frontClean_dropWhile wsb _

theorem dropTrailing_of_frontClean_reverse (p : Char → Bool) (l : Str)
    (h : frontClean p l.reverse) : dropTrailing p l = l := by
  unfold dropTrailing
  rw [h, List.reverse_reverse]

theorem trimStr_idem (s : Str) : trimStr (trimStr s) = trimStr s := by
  have h1 : (trimStr s).dropWhile wsb = trimStr s := by
    have := frontClean_dropTrailing wsb (s.dropWhile wsb)
      (frontClean_dropWhile wsb s)
    exact this
  show dropTrailing wsb ((trimStr s).dropWhile wsb) = trimStr s
  rw [h1]
  exact dropTrailing_of_frontClean_reverse wsb _ (frontClean_reverse_trim s)

/-- The tag-normal form used by `normalize_tags`: trim, then lowercase. -/
def tagNorm (t : Str) : Str := toLowerStr (trimStr t)

theorem tagNorm_idem (t : Str) : tagNorm (tagNorm t) = tagNorm t := by
  unfold tagNorm
  rw [trimStr_toLower, toLowerStr_idem, trimStr_idem]

/-! ### Tag validation and normalization
(`src/handlers/task_handler.rs`, `validate_tags` / `normalize_tags`) -/

/-- Embedding of `validate_tags`: returns the first error encountered, in
input order; the trim-emptiness check precedes the length check for each
entry.  Rust `t.len()` counts UTF-8 bytes, modelled by `byteLen`. -/
def validate_tags : List Str → Option String
  | [] => none
  | t :: rest =>
    if trimStr t = [] then some "tags must not contain empty entries"
    else if byteLen t > 64 then some "tag too long (max 64 chars)"
    else validate_tags rest

/-- Worker for `normalize_tags`; `seen` models the `HashSet` of already
emitted normalized tags (only membership is consulted). -/
def normalizeTagsAux (seen : List Str) : List Str → List Str
  | [] => []
  | t :: rest =>
    if tagNorm t ≠ [] ∧ tagNorm t ∉ seen
    then tagNorm t :: normalizeTagsAux (tagNorm t :: seen) rest
    else normalizeTagsAux seen rest

/-- Embedding of `normalize_tags`: trim and lowercase each entry, drop
entries that become empty, deduplicate keeping the first occurrence,
preserving insertion order. -/
def normalize_tags (tags : List Str) : List Str := normalizeTagsAux [] tags

theorem normalizeTagsAux_spec (l : List Str) :
    ∀ seen : List Str,
      (∀ x ∈ normalizeTagsAux seen l, tagNorm x = x ∧ x ≠ [] ∧ x ∉ seen) ∧
      (normalizeTagsAux seen l).Nodup := by
  induction l with
  | nil => intro seen; simp [normalizeTagsAux]
  | cons t rest ih =>
    intro seen
    by_cases h : tagNorm t ≠ [] ∧ tagNorm t ∉ seen
    · simp only [normalizeTagsAux]
      rw [if_pos h]
      obtain ⟨ihmem, ihnd⟩ := ih (tagNorm t :: seen)
      constructor
      · intro x hx
        rcases List.mem_cons.mp hx with hx | hx
        · subst hx
          exact ⟨tagNorm_idem t, h.1, h.2⟩
        · obtain ⟨h1, h2, h3⟩ := ihmem x hx
          exact ⟨h1, h2, fun hs => h3 (List.mem_cons_of_mem _ hs)⟩
      · refine List.nodup_cons.mpr ⟨?_, ihnd⟩
        intro hmem
        obtain ⟨_, _, h3⟩ := ihmem _ hmem
        exact h3 (List.mem_cons_self _ _)
    · simp only [normalizeTagsAux]
      rw [if_neg h]
      exact ih seen

theorem normalizeTagsAux_fixed (l : List Str) :
    ∀ seen : List Str,
      (∀ x ∈ l, tagNorm x = x ∧ x ≠ [] ∧ x ∉ seen) → l.Nodup →
      normalizeTagsAux seen l = l := by
  induction l with
  | nil => intro seen _ _; rfl
  | cons t rest ih =>
    intro seen hmem hnd
    obtain ⟨h1, h2, h3⟩ := hmem t (List.mem_cons_self _ _)
    have hcond : tagNorm t ≠ [] ∧ tagNorm t ∉ seen := by
      rw [h1]
      exact ⟨h2, h3⟩
    simp only [normalizeTagsAux]
    rw [if_pos hcond, h1]
    congr 1
    apply ih
    · intro x hx
      obtain ⟨g1, g2, g3⟩ := hmem x (List.mem_cons_of_mem _ hx)
      refine ⟨g1, g2, ?_⟩
      intro hmem2
      rcases List.mem_cons.mp hmem2 with he | hs
      · subst he
        exact (List.nodup_cons.mp hnd).1 hx
      · exact g3 hs
    · exact (List.nodup_cons.mp hnd).2

/-! ### Data model (`src/models/task.rs`) -/

/-- Embedding of `Priority` (`src/models/task.rs`): low < medium < high <
critical, default medium. -/
inductive Priority
  | Low
  | Medium
  | High
  | Critical
deriving DecidableEq

/-- Embedding of `Priority::sort_value`. -/
def Priority.sort_value : Priority → Nat
  | .Low => 1
  | .Medium => 2
  | .High => 3
  | .Critical => 4

/-- Embedding of the `Task` record.  `Uuid` is modelled as `Nat`,
`DateTime<Utc>` as a `Nat` clock value. -/
structure Task where
  id : Nat
  title : Str
  description : Str
  completed : Bool
  created_at : Nat
  updated_at : Nat
  tags : List Str
  priority : Priority
deriving DecidableEq

/-- Embedding of the `TaskCreate` DTO. -/
structure TaskCreate where
  title : Str
  description : Str
deriving DecidableEq

/-- Embedding of `TaskCreate::validate`: the title must be non-empty after
trimming. -/
def TaskCreate.validate (tc : TaskCreate) : Option String :=
  if trimStr tc.title = [] then some "title must not be empty" else none

/-- Embedding of the `TaskUpdate` DTO. -/
structure TaskUpdate where
  title : Option Str
  description : Option Str
  completed : Option Bool
deriving DecidableEq

/-- Embedding of `Task::new_full`; the generated UUID and the `Utc::now()`
clock reading are passed explicitly. -/
def Task.new_full (id now : Nat) (title description : Str) : Task :=
  { id := id
    title := title
    description := description
    completed := false
    created_at := now
    updated_at := now
    tags := []
    priority := .Medium }

/-- Embedding of `Task::apply_update`: apply the fields present in the
partial update and re-stamp `updated_at` with the current clock. -/
def Task.apply_update (t : Task) (upd : TaskUpdate) (now : Nat) : Task :=
  { t with
    title := upd.title.getD t.title
    description := upd.description.getD t.description
    completed := upd.completed.getD t.completed
    updated_at := now }

/-! ### Store (`src/models/repository.rs`)

The `HashMap<Uuid, Task>` guarded by the lock is modelled as a list of
tasks keyed by `id`; `insert` upserts (replacing the first entry with the
same id), `get` finds by id, `update` applies `apply_update` to the entry
with the given id. -/

abbrev Store := List Task

/-- Embedding of `TaskRepository::get`. -/
def store_get (s : Store) (id : Nat) : Option Task :=
  s.find? (fun t => t.id == id)

/-- Embedding of `TaskRepository::insert` (upsert by id). -/
def store_insert : Store → Task → Store
  | [], t => [t]
  | h :: rest, t =>
    if h.id = t.id then t :: rest else h :: store_insert rest t

/-- Embedding of `TaskRepository::update`. -/
def store_update : Store → Nat → TaskUpdate → Nat → Store
  | [], _, _, _ => []
  | h :: rest, id, upd, now =>
    if h.id = id then h.apply_update upd now :: rest
    else store_update rest id upd now |> (h :: ·)

/-! ### Tag endpoints (`src/handlers/task_handler.rs`, `set_tags`) -/

/-- Outcome of the `set_tags` handler. -/
inductive SetTagsOut
  | badRequest (msg : String)
  | notFound
  | ok (t : Task)
deriving DecidableEq

/-- Embedding of the `set_tags` handler (PUT /tasks/{id}/tags): validate
the raw tags, normalize them, fetch the task, re-store it via an empty
`update` followed by an `insert` of the pre-fetched copy carrying the new
tags.  The UUID is modelled as already parsed; `now` is the clock reading
used by the inner `update` call. -/
def set_tags (store : Store) (id : Nat) (tags : List Str) (now : Nat) :
    SetTagsOut × Store :=
  match validate_tags tags with
  | some e => (.badRequest e, store)
  | none =>
    match store_get store id with
    | none => (.notFound, store)
    | some t0 =>
      let t' := { t0 with tags := normalize_tags tags }
      let store1 := store_update store id ⟨none, none, none⟩ now
      (.ok t', store_insert store1 t')

/-! ### Lemmas about validation and the store -/

theorem validate_tags_eq_none_iff (l : List Str) :
    validate_tags l = none ↔ ∀ t ∈ l, trimStr t ≠ [] ∧ byteLen t ≤ 64 := by
  induction l with
  | nil => simp [validate_tags]
  | cons t rest ih =>
    by_cases h1 : trimStr t = []
    · simp [validate_tags, h1]
    · by_cases h2 : byteLen t > 64
      · simp [validate_tags, h1, h2]
      · simp [validate_tags, h1, h2, ih]
        intro _
        omega

theorem validate_tags_empty_msg (l : List Str)
    (h1 : ∃ t ∈ l, trimStr t = []) (h2 : ∀ t ∈ l, byteLen t ≤ 64) :
    validate_tags l = some "tags must not contain empty entries" := by
  induction l with
  | nil => simp at h1
  | cons t rest ih =>
    by_cases he : trimStr t = []
    · simp [validate_tags, he]
    · have hlen : ¬ byteLen t > 64 := by
        have := h2 t (List.mem_cons_self _ _)
        omega
      simp [validate_tags, he, hlen]
      apply ih
      · rcases h1 with ⟨u, hu, hue⟩
        rcases List.mem_cons.mp hu with rfl | hu'
        · exact absurd hue he
        · exact ⟨u, hu', hue⟩
      · intro u hu
        exact h2 u (List.mem_cons_of_mem _ hu)

theorem store_get_id (s : Store) (id : Nat) (t : Task)
    (h : store_get s id = some t) : t.id = id := by
  have := List.find?_some h
  simpa using this

theorem store_get_insert_self (s : Store) (t : Task) :
    store_get (store_insert s t) t.id = some t := by
  induction s with
  | nil => simp [store_insert, store_get, List.find?]
  | cons h rest ih =>
    by_cases he : h.id = t.id
    · simp [store_insert, he, store_get, List.find?]
    · simp only [store_insert, if_neg he]
      simp only [store_get, List.find?] at ih ⊢
      have : (h.id == t.id) = false := by
        simp [he]
      rw [this]
      exact ih

/-! ### Claim C5: tag normalization is idempotent -/

/-- C5: tag normalization (trim each entry, lowercase it, drop entries that
become empty, deduplicate keeping the first occurrence, preserving
insertion order) is idempotent, and normalizing
["Feature","feature","Backend"] yields exactly ["feature","backend"]. -/
theorem normalize_tags_idempotent :
    (∀ tags : List Str,
      normalize_tags (normalize_tags tags) = normalize_tags tags) ∧
    normalize_tags ["Feature".toList, "feature".toList, "Backend".toList] =
      ["feature".toList, "backend".toList] := by
  constructor
  · intro tags
    obtain ⟨hmem, hnd⟩ := normalizeTagsAux_spec tags []
    apply normalizeTagsAux_fixed
    · intro x hx
      obtain ⟨a, b, _⟩ := hmem x hx
      exact ⟨a, b, by simp⟩
    · exact hnd
  · decide

/-! ### Claim C4: invalid tag batches are rejected atomically -/

/-- C4: whenever some raw tag entry trims to empty or exceeds the 64-byte
limit, `set_tags` rejects the whole batch with an error and leaves the
store (hence the task's stored tag set) exactly as it was; when all
entries are within the length limit the error is the emptiness message. -/
theorem set_tags_rejects_invalid_batch (store : Store) (id : Nat)
    (tags : List Str) (now : Nat)
    (h : ∃ t ∈ tags, trimStr t = [] ∨ byteLen t > 64) :
    (∃ msg, (set_tags store id tags now).1 = .badRequest msg) ∧
    (set_tags store id tags now).2 = store ∧
    ((∀ t ∈ tags, byteLen t ≤ 64) →
      (set_tags store id tags now).1 =
        .badRequest "tags must not contain empty entries") := by
  have hne : validate_tags tags ≠ none := by
    intro hn
    rw [validate_tags_eq_none_iff] at hn
    obtain ⟨t, ht, hbad⟩ := h
    obtain ⟨h1, h2⟩ := hn t ht
    rcases hbad with hb | hb
    · exact h1 hb
    · omega
  obtain ⟨e, he⟩ := Option.ne_none_iff_exists'.mp hne
  refine ⟨⟨e, by simp [set_tags, he]⟩, by simp [set_tags, he], ?_⟩
  intro hle
  have hempty : ∃ t ∈ tags, trimStr t = [] := by
    obtain ⟨t, ht, hbad⟩ := h
    rcases hbad with hb | hb
    · exact ⟨t, ht, hb⟩
    · have := hle t ht
      omega
  have := validate_tags_empty_msg tags hempty hle
  simp [set_tags, this]

/-- Witness for C4 at the spec's own example batch {"valid","   "} against
a store holding one task with tags ["old"]. -/
theorem set_tags_rejects_invalid_batch_witness :
    (∃ msg, (set_tags [⟨1, ['t'], [], false, 0, 0, [['o','l','d']], .Medium⟩]
        1 ["valid".toList, "   ".toList] 3).1 = .badRequest msg) ∧
    (set_tags [⟨1, ['t'], [], false, 0, 0, [['o','l','d']], .Medium⟩]
        1 ["valid".toList, "   ".toList] 3).2 =
      [⟨1, ['t'], [], false, 0, 0, [['o','l','d']], .Medium⟩] ∧
    ((∀ t ∈ ["valid".toList, "   ".toList], byteLen t ≤ 64) →
      (set_tags [⟨1, ['t'], [], false, 0, 0, [['o','l','d']], .Medium⟩]
          1 ["valid".toList, "   ".toList] 3).1 =
        .badRequest "tags must not contain empty entries") :=
  set_tags_rejects_invalid_batch _ 1 _ 3 (by decide)

/-! ### Claim C6: does a successful tag replacement re-stamp `updated_at`? -/

/-- C6 counterexample: with a stored task whose `updated_at` is 10 and a
clock reading of 11 at the call, a successful `set_tags` leaves the stored
`updated_at` at 10 — the intermediate `update` re-stamp is overwritten by
the final `insert` of the pre-fetched copy — refuting the claim that the
stored `updated_at` becomes strictly later under a ticking clock. -/
theorem set_tags_restamp_counterexample :
    (10 : Nat) < 11 ∧
    store_get (set_tags [⟨1, ['a'], [], false, 5, 10, [], .Medium⟩]
        1 [['x']] 11).2 1 =
      some ⟨1, ['a'], [], false, 5, 10, [['x']], .Medium⟩ ∧
    ¬ (∀ t', store_get (set_tags [⟨1, ['a'], [], false, 5, 10, [], .Medium⟩]
        1 [['x']] 11).2 1 = some t' → 10 < t'.updated_at) := by
  refine ⟨by omega, by decide, ?_⟩
  intro hall
  have := hall ⟨1, ['a'], [], false, 5, 10, [['x']], .Medium⟩ (by decide)
  simp at this

/-- C6 (amended): a successful tag replacement stores the pre-fetched copy
with the normalized tags, so every field other than `tags` — including
`updated_at` — is exactly what it was before the call. -/
theorem set_tags_keeps_updated_at (store : Store) (id : Nat)
    (tags : List Str) (now : Nat) (t0 : Task)
    (hget : store_get store id = some t0)
    (hv : validate_tags tags = none) :
    (set_tags store id tags now).1 =
      .ok { t0 with tags := normalize_tags tags } ∧
    store_get (set_tags store id tags now).2 id =
      some { t0 with tags := normalize_tags tags } := by
  have hid : t0.id = id := store_get_id store id t0 hget
  subst hid
  refine ⟨by simp [set_tags, hv, hget], ?_⟩
  simp only [set_tags, hv, hget]
  exact store_get_insert_self _ _

/-- Witness for C6 (amended) at a concrete store, task and clock. -/
theorem set_tags_keeps_updated_at_witness :
    (set_tags [⟨1, ['a'], [], false, 5, 10, [], .Medium⟩] 1 [['x']] 11).1 =
      .ok { (⟨1, ['a'], [], false, 5, 10, [], .Medium⟩ : Task) with
              tags := normalize_tags [['x']] } ∧
    store_get (set_tags [⟨1, ['a'], [], false, 5, 10, [], .Medium⟩]
        1 [['x']] 11).2 1 =
      some { (⟨1, ['a'], [], false, 5, 10, [], .Medium⟩ : Task) with
              tags := normalize_tags [['x']] } :=
  set_tags_keeps_updated_at _ 1 [['x']] 11 _ (by decide) (by decide)

/-! ### List endpoint (`src/handlers/task_handler.rs`, `get_tasks`) -/

/-- Does `s` start with `pat`? (model of Rust `str::starts_with`). -/
def hasPfx : Str → Str → Bool
  | [], _ => true
  | _ :: _, [] => false
  | p :: ps, c :: cs => p == c && hasPfx ps cs

/-- Model of Rust `str::ends_with`. -/
def hasSfx (pat s : Str) : Bool := hasPfx pat.reverse s.reverse

/-- Embedding of `ListParams` (query parameters of GET /tasks). -/
structure ListParams where
  completed : Option Bool
  page : Option Nat
  per_page : Option Nat
  sort : Option Str

/-- Sort direction determination in `get_tasks`: descending exactly when
the directive starts with "created_at" and ends with ":desc". -/
def sortDescOf : Option Str → Bool
  | none => false
  | some s => hasPfx "created_at".toList s && hasSfx ":desc".toList s

/-- Ascending creation-timestamp order. -/
def createdLe (a b : Task) : Prop := a.created_at ≤ b.created_at

/-- Descending creation-timestamp order. -/
def createdGe (a b : Task) : Prop := b.created_at ≤ a.created_at

instance : DecidableRel createdLe :=
  fun a b => inferInstanceAs (Decidable (a.created_at ≤ b.created_at))

instance : DecidableRel createdGe :=
  fun a b => inferInstanceAs (Decidable (b.created_at ≤ a.created_at))

instance : IsTotal Task createdLe :=
  ⟨fun a b => Nat.le_total a.created_at b.created_at⟩

instance : IsTotal Task createdGe :=
  ⟨fun a b => (Nat.le_total a.created_at b.created_at).symm⟩

instance : IsTrans Task createdLe :=
  ⟨fun _ _ _ hab hbc => Nat.le_trans hab hbc⟩

instance : IsTrans Task createdGe :=
  ⟨fun _ _ _ hab hbc => Nat.le_trans hbc hab⟩

/-- Modelled from the spec: `TaskRepository::list_sorted_by_created_at` is
called by `get_tasks` but its implementation is not among the provided
sources.  Spec section 4.1: "snapshot sorted by creation timestamp; ties
broken by unspecified but stable order" — instantiated here as a stable
insertion sort over the snapshot. -/
def list_sorted_by_created_at (desc : Bool) (store : Store) : List Task :=
  if desc then List.insertionSort createdGe store
  else List.insertionSort createdLe store

/-- The sorted-then-completion-filtered sequence built by `get_tasks`
before pagination. -/
def filteredItems (params : ListParams) (store : Store) : List Task :=
  let items0 := list_sorted_by_created_at (sortDescOf params.sort) store
  match params.completed with
  | some b => items0.filter (fun t => t.completed == b)
  | none => items0

/-- Response shape of GET /tasks. -/
structure ListResponse where
  items : List Task
  total : Nat
  page : Nat
  per_page : Nat
deriving DecidableEq

/-- Effective page: requested page defaulting to 1, clamped to at least 1. -/
def effPage (params : ListParams) : Nat := max (params.page.getD 1) 1

/-- Effective page size: requested size defaulting to 20, clamped to at
least 1 and at most 100. -/
def effPerPage (params : ListParams) : Nat :=
  min (max (params.per_page.getD 20) 1) 100

/-- The handler's `start` offset: `per_page * (page - 1)` computed in
`usize`, which wraps modulo `2 ^ 64` (release profile; under debug
overflow checks the same computation panics).  Parsed `usize` query
values are below `2 ^ 64`, so the wrap is reachable, e.g. at
`per_page = 2`, `page = 2 ^ 63 + 1`. -/
def startOf (params : ListParams) : Nat :=
  (effPerPage params * (effPage params - 1)) % 2 ^ 64

/-- The handler's `end` offset: `min(start + per_page, total)` with the
addition performed in wrapping `usize` arithmetic. -/
def endOf (params : ListParams) (store : Store) : Nat :=
  min ((startOf params + effPerPage params) % 2 ^ 64)
    (filteredItems params store).length

/-- Embedding of the `get_tasks` handler: sort the snapshot by creation
timestamp, filter by completion if requested, paginate, and report the
effective page, page size and pre-pagination total.  The offset
arithmetic is `usize` arithmetic, modelled as wrapping modulo `2 ^ 64`. -/
def get_tasks (params : ListParams) (store : Store) : ListResponse :=
  let page := effPage params
  let per_page := effPerPage params
  let items := filteredItems params store
  let total := items.length
  let start := startOf params
  let e := endOf params store
  let page_items :=
    if start ≥ total then [] else (items.drop start).take (e - start)
  { items := page_items, total := total, page := page, per_page := per_page }

/-! ### Pagination lemmas -/

theorem one_le_effPage (params : ListParams) : 1 ≤ effPage params :=
  Nat.le_max_right _ _

theorem one_le_effPerPage (params : ListParams) : 1 ≤ effPerPage params :=
  le_min (Nat.le_max_right _ _) (by norm_num)

theorem effPerPage_le_100 (params : ListParams) : effPerPage params ≤ 100 :=
  Nat.min_le_right _ _

theorem mul_pred_add (S P : Nat) (hP : 1 ≤ P) : S * (P - 1) + S = S * P := by
  conv_rhs => rw [show P = (P - 1) + 1 by omega]
  ring

theorem get_tasks_items_window (params : ListParams) (store : Store) :
    (get_tasks params store).items =
      ((filteredItems params store).drop (startOf params)).take
        (endOf params store - startOf params) := by
  simp only [get_tasks]
  split
  · next h =>
    have h1 : endOf params store ≤ (filteredItems params store).length := by
      unfold endOf
      exact Nat.min_le_right _ _
    have h0 : endOf params store - startOf params = 0 := by omega
    rw [h0]
    simp
  · rfl

theorem startOf_eq (params : ListParams)
    (h : effPerPage params * effPage params < 2 ^ 64) :
    startOf params = effPerPage params * (effPage params - 1) := by
  unfold startOf
  apply Nat.mod_eq_of_lt
  calc effPerPage params * (effPage params - 1)
      ≤ effPerPage params * effPage params :=
        Nat.mul_le_mul_left _ (Nat.sub_le _ _)
    _ < 2 ^ 64 := h

theorem endOf_eq (params : ListParams) (store : Store)
    (h : effPerPage params * effPage params < 2 ^ 64) :
    endOf params store =
      min (effPerPage params * effPage params)
        (filteredItems params store).length := by
  have hSP := mul_pred_add (effPerPage params) (effPage params)
    (one_le_effPage params)
  unfold endOf
  rw [startOf_eq params h, hSP, Nat.mod_eq_of_lt h]

theorem get_tasks_items_window_of_lt (params : ListParams) (store : Store)
    (h : effPerPage params * effPage params < 2 ^ 64) :
    (get_tasks params store).items =
      ((filteredItems params store).drop
          (effPerPage params * (effPage params - 1))).take
        (min (effPerPage params * effPage params)
            (filteredItems params store).length -
          effPerPage params * (effPage params - 1)) := by
  rw [get_tasks_items_window params store, startOf_eq params h,
    endOf_eq params store h]

theorem get_tasks_items_count_of_lt (params : ListParams) (store : Store)
    (h : effPerPage params * effPage params < 2 ^ 64) :
    ((get_tasks params store).items.length : Int) =
      max 0 (min (effPerPage params : Int)
        (((filteredItems params store).length : Int) -
          (effPerPage params : Int) * ((effPage params : Int) - 1))) := by
  have hP : 1 ≤ effPage params := one_le_effPage params
  have hSP := mul_pred_add (effPerPage params) (effPage params) hP
  rw [get_tasks_items_window_of_lt params store h]
  rw [List.length_take, List.length_drop]
  have hcast : ((effPage params : Int) - 1) = ((effPage params - 1 : Nat) : Int) := by
    omega
  rw [hcast, ← Int.natCast_mul]
  generalize (filteredItems params store).length = T
  generalize hm2 : effPerPage params * (effPage params - 1) = m2 at *
  generalize hm1 : effPerPage params * effPage params = m1 at *
  omega

theorem get_tasks_items_sublist_filtered (params : ListParams) (store : Store) :
    (get_tasks params store).items.Sublist (filteredItems params store) := by
  rw [get_tasks_items_window]
  exact (List.take_sublist _ _).trans (List.drop_sublist _ _)

theorem filtered_sublist_sorted (params : ListParams) (store : Store) :
    (filteredItems params store).Sublist
      (list_sorted_by_created_at (sortDescOf params.sort) store) := by
  unfold filteredItems
  cases params.completed with
  | none => simp
  | some b => simp only []; exact List.filter_sublist _

/-! ### Claim C1: pagination window, count formula, echoed parameters -/

/-- C1 counterexample: at `per_page = 2` and `page = 2 ^ 63 + 1` (a value
the query string can carry, since it is below `2 ^ 64`), the handler's
`usize` product `per_page * (page - 1)` wraps to 0 and the first window
is returned, although `S * (P - 1) ≥ T`, where the claim's formula
demands an empty result. -/
theorem get_tasks_pagination_wrap_counterexample :
    (get_tasks ⟨none, some 9223372036854775809, some 2, none⟩
        [⟨1, ['t'], [], false, 1, 1, [], .Medium⟩]).items =
      [⟨1, ['t'], [], false, 1, 1, [], .Medium⟩] ∧
    effPerPage ⟨none, some 9223372036854775809, some 2, none⟩ *
        (effPage ⟨none, some 9223372036854775809, some 2, none⟩ - 1) ≥
      (filteredItems ⟨none, some 9223372036854775809, some 2, none⟩
          [⟨1, ['t'], [], false, 1, 1, [], .Medium⟩]).length ∧
    (get_tasks ⟨none, some 9223372036854775809, some 2, none⟩
        [⟨1, ['t'], [], false, 1, 1, [], .Medium⟩]).items ≠ [] := by
  decide

/-- C1 (amended): with S the page size clamped into [1,100], P the page
clamped to at least 1, T the post-filter total and
`start = S * (P - 1) mod 2 ^ 64` (the handler's wrapping `usize`
product), the returned items are the window
`[start, min((start + S) mod 2 ^ 64, T))` of the post-filter sequence,
empty whenever `start ≥ T`; whenever `S * P < 2 ^ 64` — every practically
reachable page — this coincides with the original claim: the window is
`[S*(P-1), min(S*P, T))`, the item count equals
`max 0 (min S (T - S*(P-1)))` and the window is empty whenever
`S*(P-1) ≥ T`.  The response always reports the effective page and page
size plus `total = T`. -/
theorem get_tasks_pagination_amended (params : ListParams) (store : Store) :
    (get_tasks params store).items =
      ((filteredItems params store).drop (startOf params)).take
        (endOf params store - startOf params) ∧
    (startOf params ≥ (filteredItems params store).length →
      (get_tasks params store).items = []) ∧
    (get_tasks params store).total = (filteredItems params store).length ∧
    (get_tasks params store).page = effPage params ∧
    (get_tasks params store).per_page = effPerPage params ∧
    1 ≤ effPage params ∧ 1 ≤ effPerPage params ∧ effPerPage params ≤ 100 ∧
    (effPerPage params * effPage params < 2 ^ 64 →
      (get_tasks params store).items =
        ((filteredItems params store).drop
            (effPerPage params * (effPage params - 1))).take
          (min (effPerPage params * effPage params)
              (filteredItems params store).length -
            effPerPage params * (effPage params - 1)) ∧
      ((get_tasks params store).items.length : Int) =
        max 0 (min (effPerPage params : Int)
          (((filteredItems params store).length : Int) -
            (effPerPage params : Int) * ((effPage params : Int) - 1))) ∧
      (effPerPage params * (effPage params - 1) ≥
          (filteredItems params store).length →
        (get_tasks params store).items = [])) := by
  refine ⟨get_tasks_items_window params store, ?_, rfl, rfl, rfl,
    one_le_effPage params, one_le_effPerPage params,
    effPerPage_le_100 params, ?_⟩
  · intro h
    simp [get_tasks, h]
  · intro hov
    refine ⟨get_tasks_items_window_of_lt params store hov,
      get_tasks_items_count_of_lt params store hov, ?_⟩
    intro h
    have hs : startOf params ≥ (filteredItems params store).length := by
      rw [startOf_eq params hov]
      exact h
    simp [get_tasks, hs]

/-- Witness for C1 (amended): an out-of-range page yields an empty item
list, both through the wrapped-offset conjunct and through the
no-overflow conjunct. -/
theorem get_tasks_pagination_amended_witness :
    (get_tasks ⟨none, some 5, some 10, none⟩ []).items = [] ∧
    (get_tasks ⟨none, some 2, some 10, none⟩
        [⟨1, ['t'], [], false, 1, 1, [], .Medium⟩]).items = [] := by
  constructor
  · exact (get_tasks_pagination_amended ⟨none, some 5, some 10, none⟩
      []).2.1 (by decide)
  · exact ((get_tasks_pagination_amended ⟨none, some 2, some 10, none⟩
      [⟨1, ['t'], [], false, 1, 1, [], .Medium⟩]).2.2.2.2.2.2.2.2
      (by decide)).2.2 (by decide)

/-! ### Claim C2: sort, then filter, then paginate -/

/-- C2: the snapshot is first sorted by creation timestamp (ascending by
default, descending when the directive requests it), the completion filter
then retains exactly the matching records preserving that order, and
pagination is applied last, to the filtered sequence; consequently the
returned items all match the filter and are sorted in the requested
direction. -/
theorem get_tasks_sort_filter_paginate (params : ListParams) (store : Store) :
    (list_sorted_by_created_at (sortDescOf params.sort) store).Perm store ∧
    (sortDescOf params.sort = false →
      (list_sorted_by_created_at (sortDescOf params.sort) store).Pairwise
        createdLe) ∧
    (sortDescOf params.sort = true →
      (list_sorted_by_created_at (sortDescOf params.sort) store).Pairwise
        createdGe) ∧
    (params.completed = none →
      filteredItems params store =
        list_sorted_by_created_at (sortDescOf params.sort) store) ∧
    (∀ b, params.completed = some b →
      filteredItems params store =
        (list_sorted_by_created_at (sortDescOf params.sort) store).filter
          (fun t => t.completed == b)) ∧
    (get_tasks params store).items =
      ((filteredItems params store).drop (startOf params)).take
        (endOf params store - startOf params) ∧
    (∀ b, params.completed = some b →
      ∀ t ∈ (get_tasks params store).items, t.completed = b) ∧
    (sortDescOf params.sort = false →
      (get_tasks params store).items.Pairwise createdLe) ∧
    (sortDescOf params.sort = true →
      (get_tasks params store).items.Pairwise createdGe) := by
  have hsub : (get_tasks params store).items.Sublist
      (list_sorted_by_created_at (sortDescOf params.sort) store) :=
    (get_tasks_items_sublist_filtered params store).trans
      (filtered_sublist_sorted params store)
  refine ⟨?_, ?_, ?_, ?_, ?_, get_tasks_items_window params store, ?_, ?_, ?_⟩
  · unfold list_sorted_by_created_at
    split
    · exact List.perm_insertionSort _ _
    · exact List.perm_insertionSort _ _
  · intro h
    unfold list_sorted_by_created_at
    rw [h]
    simpa using List.sorted_insertionSort createdLe store
  · intro h
    unfold list_sorted_by_created_at
    rw [h]
    simpa using List.sorted_insertionSort createdGe store
  · intro h
    simp [filteredItems, h]
  · intro b h
    simp [filteredItems, h]
  · intro b h t ht
    have hmem : t ∈ filteredItems params store :=
      (get_tasks_items_sublist_filtered params store).mem ht
    unfold filteredItems at hmem
    rw [h] at hmem
    have := List.of_mem_filter hmem
    simpa using this
  · intro h
    have hp : (list_sorted_by_created_at (sortDescOf params.sort)
        store).Pairwise createdLe := by
      unfold list_sorted_by_created_at
      rw [h]
      simpa using List.sorted_insertionSort createdLe store
    exact List.Pairwise.sublist hsub hp
  · intro h
    have hp : (list_sorted_by_created_at (sortDescOf params.sort)
        store).Pairwise createdGe := by
      unfold list_sorted_by_created_at
      rw [h]
      simpa using List.sorted_insertionSort createdGe store
    exact List.Pairwise.sublist hsub hp

/-- Witness for C2 at a concrete store with a descending directive and a
completion filter. -/
theorem get_tasks_sort_filter_paginate_witness :
    filteredItems
        ⟨some false, none, none, some ":desc".toList⟩
        [⟨1, ['t'], [], false, 1, 1, [], .Medium⟩] =
      (list_sorted_by_created_at
        (sortDescOf (some ":desc".toList))
        [⟨1, ['t'], [], false, 1, 1, [], .Medium⟩]).filter
          (fun t => t.completed == false) :=
  (get_tasks_sort_filter_paginate _ _).2.2.2.2.1 false rfl

/-! ### Claim C10: defaults for omitted pagination parameters -/

/-- C10: a list request omitting the page parameter gets effective page 1
and one omitting the page-size parameter gets effective page size 20;
these are the values echoed in the response. -/
theorem get_tasks_default_page_and_size (params : ListParams) (store : Store) :
    (params.page = none → (get_tasks params store).page = 1) ∧
    (params.per_page = none → (get_tasks params store).per_page = 20) := by
  constructor
  · intro h
    show effPage params = 1
    simp [effPage, h]
  · intro h
    show effPerPage params = 20
    simp [effPerPage, h]

/-- Witness for C10 with both parameters omitted. -/
theorem get_tasks_default_page_and_size_witness :
    (get_tasks ⟨some true, none, none, none⟩ []).page = 1 ∧
    (get_tasks ⟨some true, none, none, none⟩ []).per_page = 20 :=
  ⟨(get_tasks_default_page_and_size ⟨some true, none, none, none⟩ []).1 rfl,
   (get_tasks_default_page_and_size ⟨some true, none, none, none⟩ []).2 rfl⟩

/-! ### Claim C7: priority sort directive -/

/-- C7: evaluation at the failing input.  With four tasks of priorities
low, critical, medium, high created in that order and the sort directive
"priority:asc", `get_tasks` returns the records in creation order — the
handler recognizes only the created_at sort key, contradicting
`tests/priority_tests.rs::sort_by_priority_orders_correctly`, which
expects the priority order low, medium, high, critical. -/
theorem get_tasks_ignores_priority_sort :
    (get_tasks ⟨none, none, none, some "priority:asc".toList⟩
        [⟨1, ['t'], [], false, 1, 1, [], .Low⟩,
         ⟨2, ['t'], [], false, 2, 2, [], .Critical⟩,
         ⟨3, ['t'], [], false, 3, 3, [], .Medium⟩,
         ⟨4, ['t'], [], false, 4, 4, [], .High⟩]).items.map Task.priority =
      [.Low, .Critical, .Medium, .High] ∧
    ([Priority.Low, .Critical, .Medium, .High] ≠
      [Priority.Low, .Medium, .High, .Critical]) := by
  decide

/-! ### Creation and import (`create_task`, `import_tasks` JSON branch) -/

/-- Embedding of the `create_task` handler (POST /tasks): builds a task
via `Task::new_full` and inserts it; the payload is not validated.  The
generated UUID and the clock reading are passed explicitly; the first
component is the HTTP status (201 CREATED) paired with the echoed task. -/
def create_task (store : Store) (payload : TaskCreate) (id now : Nat) :
    (Nat × Task) × Store :=
  let task := Task.new_full id now payload.title payload.description
  ((201, task), store_insert store task)

/-- Modelled from the spec: `TaskRepository::insert_many` is called by
the import handlers but its implementation is not among the sources.
Spec section 4.1: "constructs and inserts a Record per input DTO, in input
order; returns the created Records in the same order.  Does not validate."
Fresh UUIDs are drawn positionally from `ids`; all records share the clock
reading `now`. -/
def insert_many (store : Store) (rows : List TaskCreate) (ids : List Nat)
    (now : Nat) : List Task × Store :=
  let created :=
    (rows.zip ids).map fun p => Task.new_full p.2 now p.1.title p.1.description
  (created, created.foldl store_insert store)

/-- The per-row validation loop of the unified import handler
(`import_tasks`, JSON branch): each decoded row is validated
independently; valid rows are collected in order, invalid ones produce an
indexed error entry (0-based index). -/
def importPartition : Nat → List TaskCreate → List TaskCreate × List (Nat × String)
  | _, [] => ([], [])
  | i, r :: rest =>
    let p := importPartition (i + 1) rest
    match r.validate with
    | none => (r :: p.1, p.2)
    | some e => (p.1, (i, e) :: p.2)

/-- Embedding of the unified import handler on an already decoded JSON
array of create DTOs: validate each row, then persist the valid subset in
one batch. -/
def import_tasks_json_rows (store : Store) (rows : List TaskCreate)
    (ids : List Nat) (now : Nat) : (List Task × List (Nat × String)) × Store :=
  let p := importPartition 0 rows
  let q := insert_many store p.1 ids now
  ((q.1, p.2), q.2)

theorem importPartition_valid (rows : List TaskCreate) :
    ∀ i, (importPartition i rows).1 =
      rows.filter (fun r => r.validate.isNone) := by
  induction rows with
  | nil => intro i; rfl
  | cons r rest ih =>
    intro i
    cases hv : r.validate with
    | none => simp [importPartition, hv, ih, List.filter_cons]
    | some e => simp [importPartition, hv, ih, List.filter_cons]

theorem importPartition_errors (rows : List TaskCreate) :
    ∀ i, (importPartition i rows).2 =
      (List.enumFrom i rows).filterMap
        (fun p => p.2.validate.map (fun e => (p.1, e))) := by
  induction rows with
  | nil => intro i; rfl
  | cons r rest ih =>
    intro i
    cases hv : r.validate with
    | none => simp [importPartition, hv, ih, List.enumFrom]
    | some e => simp [importPartition, hv, ih, List.enumFrom]

theorem validate_none_iff (r : TaskCreate) :
    r.validate = none ↔ trimStr r.title ≠ [] := by
  unfold TaskCreate.validate
  split <;> simp_all

theorem validate_some_iff (r : TaskCreate) :
    r.validate = some "title must not be empty" ↔ trimStr r.title = [] := by
  unfold TaskCreate.validate
  split <;> simp_all

/-! ### Claim C3: empty-title rejection on create and import paths -/

/-- C3 counterexample: the single-create handler performs no validation —
a payload whose title is whitespace-only is accepted with 201 CREATED and
the record (whose title trims to empty) is inserted into the store, even
though `TaskCreate::validate` would reject it. -/
theorem create_task_accepts_empty_title :
    (create_task [] ⟨"   ".toList, ['d']⟩ 1 5).1.1 = 201 ∧
    store_get (create_task [] ⟨"   ".toList, ['d']⟩ 1 5).2 1 =
      some (Task.new_full 1 5 "   ".toList ['d']) ∧
    trimStr (Task.new_full 1 5 "   ".toList ['d']).title = [] ∧
    TaskCreate.validate ⟨"   ".toList, ['d']⟩ =
      some "title must not be empty" := by
  decide

/-- C3 (amended): the import path validates per row — rows whose title
trims to empty are rejected with a 0-based indexed error and only rows
with non-empty trimmed titles are persisted, so no empty-titled record
enters the store through import; the single-create path, by contrast,
performs no validation and unconditionally inserts the new record. -/
theorem import_validates_create_does_not (store : Store)
    (rows : List TaskCreate) (ids : List Nat) (now : Nat)
    (payload : TaskCreate) (id : Nat) :
    (importPartition 0 rows).1 =
      rows.filter (fun r => r.validate.isNone) ∧
    (importPartition 0 rows).2 =
      (List.enumFrom 0 rows).filterMap
        (fun p => p.2.validate.map (fun e => (p.1, e))) ∧
    (∀ r ∈ rows, r.validate = some "title must not be empty" ↔
      trimStr r.title = []) ∧
    (∀ t ∈ (import_tasks_json_rows store rows ids now).1.1,
      trimStr t.title ≠ []) ∧
    (create_task store payload id now).1.1 = 201 ∧
    (create_task store payload id now).2 =
      store_insert store (Task.new_full id now payload.title payload.description) := by
  refine ⟨importPartition_valid rows 0, importPartition_errors rows 0,
    fun r _ => validate_some_iff r, ?_, rfl, rfl⟩
  intro t ht
  have hmem : t ∈ ((importPartition 0 rows).1.zip ids).map
      (fun p => Task.new_full p.2 now p.1.title p.1.description) := ht
  obtain ⟨p, hp, hpt⟩ := List.mem_map.mp hmem
  obtain ⟨hr, _⟩ := List.of_mem_zip hp
  rw [importPartition_valid rows 0] at hr
  have hv := List.of_mem_filter hr
  have : p.1.validate = none := by
    cases h : p.1.validate <;> simp [h] at hv ⊢
  rw [validate_none_iff] at this
  rw [← hpt]
  exact this

/-- Witness for C3 (amended) on a two-row batch with one invalid row. -/
theorem import_validates_create_does_not_witness :
    trimStr (Task.new_full 10 3 "Okay".toList ['d']).title ≠ [] :=
  (import_validates_create_does_not []
      [⟨"Okay".toList, ['d']⟩, ⟨"   ".toList, ['d']⟩] [10] 3
      ⟨['x'], []⟩ 9).2.2.2.1
    (Task.new_full 10 3 "Okay".toList ['d']) (by decide)

/-! ### Statistics (`src/handlers/task_handler.rs`, `get_stats`) -/

/-- Lexicographic comparison of strings by code point; for ASCII data this
coincides with Rust's byte-wise `Ord` on `String` (UTF-8 preserves code
point order in general). -/
def strLeb : Str → Str → Bool
  | [], _ => true
  | _ :: _, [] => false
  | a :: as, b :: bs =>
    if a.toNat < b.toNat then true
    else if b.toNat < a.toNat then false
    else strLeb as bs

theorem strLeb_total : ∀ a b : Str, strLeb a b = true ∨ strLeb b a = true := by
  intro a
  induction a with
  | nil => intro b; left; rfl
  | cons c cs ih =>
    intro b
    cases b with
    | nil => right; rfl
    | cons d ds =>
      by_cases h1 : c.toNat < d.toNat
      · left
        simp [strLeb, h1]
      · by_cases h2 : d.toNat < c.toNat
        · right
          simp [strLeb, h2]
        · rcases ih ds with h | h
          · left
            simp [strLeb, h1, h2, h]
          · right
            simp [strLeb, h1, h2, h]

theorem strLeb_trans : ∀ a b c : Str,
    strLeb a b = true → strLeb b c = true → strLeb a c = true := by
  intro a
  induction a with
  | nil => intro b c _ _; rfl
  | cons x xs ih =>
    intro b c hab hbc
    cases b with
    | nil => simp [strLeb] at hab
    | cons y ys =>
      cases c with
      | nil => simp [strLeb] at hbc
      | cons z zs =>
        simp only [strLeb] at hab hbc ⊢
        by_cases h1 : x.toNat < y.toNat
        · by_cases h2 : y.toNat < z.toNat
          · simp [show x.toNat < z.toNat by omega]
          · by_cases h3 : z.toNat < y.toNat
            · simp [h2, h3] at hbc
            · simp [show x.toNat < z.toNat by omega]
        · by_cases h4 : y.toNat < x.toNat
          · simp [h1, h4] at hab
          · by_cases h2 : y.toNat < z.toNat
            · simp [show x.toNat < z.toNat by omega]
            · by_cases h3 : z.toNat < y.toNat
              · simp [h2, h3] at hbc
              · have g1 : ¬ x.toNat < z.toNat := by omega
                have g2 : ¬ z.toNat < x.toNat := by omega
                simp [h1, h4] at hab
                simp [h2, h3] at hbc
                simp [g1, g2]
                exact ih ys zs hab hbc

/-- The comparator used to sort the tag frequency vector: descending
count, ties broken by ascending tag name. -/
def statLeb (a b : Str × Nat) : Bool :=
  if b.2 < a.2 then true
  else if a.2 = b.2 then strLeb a.1 b.1
  else false

/-- Propositional form of `statLeb`. -/
def statR (a b : Str × Nat) : Prop := statLeb a b = true

instance : DecidableRel statR :=
  fun a b => inferInstanceAs (Decidable (statLeb a b = true))

instance : IsTotal (Str × Nat) statR := ⟨by
  intro a b
  unfold statR statLeb
  by_cases h1 : b.2 < a.2
  · left
    simp [h1]
  · by_cases h2 : a.2 < b.2
    · right
      simp [h2]
    · have he : a.2 = b.2 := by omega
      rcases strLeb_total a.1 b.1 with h | h
      · left
        simp [h1, he, h]
      · right
        simp [h2, he.symm, h]⟩

instance : IsTrans (Str × Nat) statR := ⟨by
  intro a b c hab hbc
  unfold statR statLeb at *
  by_cases h1 : b.2 < a.2
  · by_cases h2 : c.2 < b.2
    · simp [show c.2 < a.2 by omega]
    · by_cases h4 : b.2 = c.2
      · simp [show c.2 < a.2 by omega]
      · simp [h2, h4] at hbc
  · by_cases h3 : a.2 = b.2
    · by_cases h2 : c.2 < b.2
      · simp [show c.2 < a.2 by omega]
      · by_cases h4 : b.2 = c.2
        · have e : a.2 = c.2 := by omega
          simp [h1, h3] at hab
          simp [h2, h4] at hbc
          have g1 : ¬ c.2 < a.2 := by omega
          simp [g1, e]
          exact strLeb_trans _ _ _ hab hbc
        · simp [h2, h4] at hbc
    · simp [h1, h3] at hab⟩

/-- The multiset of tag occurrences across the snapshot (each task
contributes each of its tags once). -/
def tagOccurrences (items : List Task) : List Str :=
  (items.map Task.tags).flatten

/-- The tag frequency table before sorting.  The `HashMap` iteration order
in the source is unspecified; the sorted result below is independent of
it, so one fixed enumeration of the distinct tags is used. -/
def tagCounts (items : List Task) : List (Str × Nat) :=
  (tagOccurrences items).dedup.map
    (fun t => (t, (tagOccurrences items).count t))

/-- Embedding of the frequency-table construction of `get_stats`: sort by
descending count with ascending-name tiebreak, keep the top 10. -/
def tagDistribution (items : List Task) : List (Str × Nat) :=
  (List.insertionSort statR (tagCounts items)).take 10

/-- One step of `Iterator::min_by_key` (keeps the first minimum). -/
def minStep (acc : Option Task) (t : Task) : Option Task :=
  match acc with
  | none => some t
  | some m => if t.created_at < m.created_at then some t else some m

/-- One step of `Iterator::max_by_key` (keeps the last maximum). -/
def maxStep (acc : Option Task) (t : Task) : Option Task :=
  match acc with
  | none => some t
  | some m => if m.created_at ≤ t.created_at then some t else some m

/-- Embedding of `items.iter().min_by_key(|t| t.created_at)`. -/
def minByCreatedAt (items : List Task) : Option Task :=
  items.foldl minStep none

/-- Embedding of `items.iter().max_by_key(|t| t.created_at)`. -/
def maxByCreatedAt (items : List Task) : Option Task :=
  items.foldl maxStep none

/-- Response shape of GET /tasks/stats. -/
structure StatsOut where
  total : Nat
  completed : Nat
  incomplete : Nat
  tag_distribution : List (Str × Nat)
  oldest_created_at : Option Nat
  newest_created_at : Option Nat
deriving DecidableEq

/-- Embedding of the `get_stats` handler over a snapshot of the store. -/
def get_stats (items : List Task) : StatsOut :=
  { total := items.length
    completed := (items.filter (fun t => t.completed)).length
    incomplete := items.length - (items.filter (fun t => t.completed)).length
    tag_distribution := tagDistribution items
    oldest_created_at := (minByCreatedAt items).map Task.created_at
    newest_created_at := (maxByCreatedAt items).map Task.created_at }

theorem minFold (l : List Task) :
    ∀ m : Task, ∃ t, l.foldl minStep (some m) = some t ∧
      (t = m ∨ t ∈ l) ∧ t.created_at ≤ m.created_at ∧
      ∀ u ∈ l, t.created_at ≤ u.created_at := by
  induction l with
  | nil =>
    intro m
    exact ⟨m, rfl, Or.inl rfl, Nat.le_refl _, by simp⟩
  | cons u rest ih =>
    intro m
    by_cases h : u.created_at < m.created_at
    · obtain ⟨t, h1, h2, h3, h4⟩ := ih u
      refine ⟨t, ?_, ?_, ?_, ?_⟩
      · simpa [minStep, h] using h1
      · rcases h2 with rfl | h2
        · exact Or.inr (List.mem_cons_self _ _)
        · exact Or.inr (List.mem_cons_of_mem _ h2)
      · omega
      · intro v hv
        rcases List.mem_cons.mp hv with rfl | hv
        · exact h3
        · exact h4 v hv
    · obtain ⟨t, h1, h2, h3, h4⟩ := ih m
      refine ⟨t, ?_, ?_, h3, ?_⟩
      · simpa [minStep, h] using h1
      · rcases h2 with rfl | h2
        · exact Or.inl rfl
        · exact Or.inr (List.mem_cons_of_mem _ h2)
      · intro v hv
        rcases List.mem_cons.mp hv with rfl | hv
        · omega
        · exact h4 v hv

theorem maxFold (l : List Task) :
    ∀ m : Task, ∃ t, l.foldl maxStep (some m) = some t ∧
      (t = m ∨ t ∈ l) ∧ m.created_at ≤ t.created_at ∧
      ∀ u ∈ l, u.created_at ≤ t.created_at := by
  induction l with
  | nil =>
    intro m
    exact ⟨m, rfl, Or.inl rfl, Nat.le_refl _, by simp⟩
  | cons u rest ih =>
    intro m
    by_cases h : m.created_at ≤ u.created_at
    · obtain ⟨t, h1, h2, h3, h4⟩ := ih u
      refine ⟨t, ?_, ?_, ?_, ?_⟩
      · simpa [maxStep, h] using h1
      · rcases h2 with rfl | h2
        · exact Or.inr (List.mem_cons_self _ _)
        · exact Or.inr (List.mem_cons_of_mem _ h2)
      · omega
      · intro v hv
        rcases List.mem_cons.mp hv with rfl | hv
        · exact h3
        · exact h4 v hv
    · obtain ⟨t, h1, h2, h3, h4⟩ := ih m
      refine ⟨t, ?_, ?_, h3, ?_⟩
      · simpa [maxStep, h] using h1
      · rcases h2 with rfl | h2
        · exact Or.inl rfl
        · exact Or.inr (List.mem_cons_of_mem _ h2)
      · intro v hv
        rcases List.mem_cons.mp hv with rfl | hv
        · omega
        · exact h4 v hv

theorem minByCreatedAt_spec (items : List Task) :
    (minByCreatedAt items = none ↔ items = []) ∧
    (∀ t, minByCreatedAt items = some t →
      t ∈ items ∧ ∀ u ∈ items, t.created_at ≤ u.created_at) := by
  cases items with
  | nil => exact ⟨by simp [minByCreatedAt], by simp [minByCreatedAt]⟩
  | cons u rest =>
    obtain ⟨t, h1, h2, h3, h4⟩ := minFold rest u
    have he : minByCreatedAt (u :: rest) = some t := by
      simpa [minByCreatedAt, List.foldl_cons, minStep] using h1
    constructor
    · simp [he]
    · intro t' ht'
      rw [he] at ht'
      injection ht' with ht'
      subst ht'
      refine ⟨?_, ?_⟩
      · rcases h2 with rfl | h2
        · exact List.mem_cons_self _ _
        · exact List.mem_cons_of_mem _ h2
      · intro v hv
        rcases List.mem_cons.mp hv with rfl | hv
        · exact h3
        · exact h4 v hv

theorem maxByCreatedAt_spec (items : List Task) :
    (maxByCreatedAt items = none ↔ items = []) ∧
    (∀ t, maxByCreatedAt items = some t →
      t ∈ items ∧ ∀ u ∈ items, u.created_at ≤ t.created_at) := by
  cases items with
  | nil => exact ⟨by simp [maxByCreatedAt], by simp [maxByCreatedAt]⟩
  | cons u rest =>
    obtain ⟨t, h1, h2, h3, h4⟩ := maxFold rest u
    have he : maxByCreatedAt (u :: rest) = some t := by
      simpa [maxByCreatedAt, List.foldl_cons, maxStep] using h1
    constructor
    · simp [he]
    · intro t' ht'
      rw [he] at ht'
      injection ht' with ht'
      subst ht'
      refine ⟨?_, ?_⟩
      · rcases h2 with rfl | h2
        · exact List.mem_cons_self _ _
        · exact List.mem_cons_of_mem _ h2
      · intro v hv
        rcases List.mem_cons.mp hv with rfl | hv
        · exact h3
        · exact h4 v hv

/-! ### Claim C8: statistics aggregation -/

/-- C8: the statistics aggregation reports total = record count,
completed = count of completed records, incomplete = total − completed, a
tag frequency table of at most 10 entries ordered by descending count
with ties broken by ascending name whose entries carry the true
occurrence counts and which omits only tags that do not rank above any
included entry, and oldest/newest creation timestamps that are none
exactly on the empty snapshot and otherwise the true minimum/maximum;
the spec's example multiset {a,b},{a,c},{b,c},{a} yields
[(a,3),(b,2),(c,2)]. -/
theorem get_stats_correct (items : List Task) :
    (get_stats items).total = items.length ∧
    (get_stats items).completed =
      (items.filter (fun t => t.completed)).length ∧
    (get_stats items).incomplete =
      (get_stats items).total - (get_stats items).completed ∧
    (get_stats items).tag_distribution.length ≤ 10 ∧
    (get_stats items).tag_distribution.Pairwise statR ∧
    (∀ p ∈ (get_stats items).tag_distribution,
      p.2 = (tagOccurrences items).count p.1 ∧
      p.1 ∈ tagOccurrences items) ∧
    (∀ tag ∈ tagOccurrences items,
      (∀ q ∈ (get_stats items).tag_distribution, q.1 ≠ tag) →
      ∀ p ∈ (get_stats items).tag_distribution,
        statR p (tag, (tagOccurrences items).count tag)) ∧
    ((get_stats items).oldest_created_at = none ↔ items = []) ∧
    ((get_stats items).newest_created_at = none ↔ items = []) ∧
    (∀ v, (get_stats items).oldest_created_at = some v →
      v ∈ items.map Task.created_at ∧
      ∀ u ∈ items.map Task.created_at, v ≤ u) ∧
    (∀ v, (get_stats items).newest_created_at = some v →
      v ∈ items.map Task.created_at ∧
      ∀ u ∈ items.map Task.created_at, u ≤ v) ∧
    (get_stats
        [⟨1, ['t'], [], false, 1, 1, [['a'], ['b']], .Medium⟩,
         ⟨2, ['t'], [], false, 2, 2, [['a'], ['c']], .Medium⟩,
         ⟨3, ['t'], [], false, 3, 3, [['b'], ['c']], .Medium⟩,
         ⟨4, ['t'], [], false, 4, 4, [['a']], .Medium⟩]).tag_distribution =
      [(['a'], 3), (['b'], 2), (['c'], 2)] := by
  refine ⟨rfl, rfl, rfl, ?_, ?_, ?_, ?_, ?_, ?_, ?_, ?_, by decide⟩
  · show (tagDistribution items).length ≤ 10
    unfold tagDistribution
    rw [List.length_take]
    exact min_le_left _ _
  · exact List.Pairwise.sublist (List.take_sublist _ _)
      (List.sorted_insertionSort statR _)
  · intro p hp
    have h1 : p ∈ List.insertionSort statR (tagCounts items) :=
      (List.take_sublist _ _).mem hp
    have h2 : p ∈ tagCounts items :=
      (List.perm_insertionSort statR (tagCounts items)).mem_iff.mp h1
    obtain ⟨t, ht, hte⟩ := List.mem_map.mp h2
    cases hte
    exact ⟨rfl, List.mem_dedup.mp ht⟩
  · intro tag htag hkeys p hp
    have hmemC : (tag, (tagOccurrences items).count tag) ∈ tagCounts items :=
      List.mem_map.mpr ⟨tag, List.mem_dedup.mpr htag, rfl⟩
    have hmemL : (tag, (tagOccurrences items).count tag) ∈
        List.insertionSort statR (tagCounts items) :=
      (List.perm_insertionSort statR (tagCounts items)).mem_iff.mpr hmemC
    have hpair := List.sorted_insertionSort statR (tagCounts items)
    rw [← List.take_append_drop 10
      (List.insertionSort statR (tagCounts items))] at hmemL hpair
    rcases List.mem_append.mp hmemL with hin | hin
    · exact absurd rfl (hkeys _ hin)
    · exact (List.pairwise_append.mp hpair).2.2 p hp _ hin
  · show (minByCreatedAt items).map Task.created_at = none ↔ items = []
    rw [Option.map_eq_none']
    exact (minByCreatedAt_spec items).1
  · show (maxByCreatedAt items).map Task.created_at = none ↔ items = []
    rw [Option.map_eq_none']
    exact (maxByCreatedAt_spec items).1
  · intro v hv
    obtain ⟨t, ht, hte⟩ := Option.map_eq_some'.mp hv
    obtain ⟨hmem, hbound⟩ := (minByCreatedAt_spec items).2 t ht
    subst hte
    refine ⟨List.mem_map.mpr ⟨t, hmem, rfl⟩, ?_⟩
    intro u hu
    obtain ⟨w, hw, hwe⟩ := List.mem_map.mp hu
    subst hwe
    exact hbound w hw
  · intro v hv
    obtain ⟨t, ht, hte⟩ := Option.map_eq_some'.mp hv
    obtain ⟨hmem, hbound⟩ := (maxByCreatedAt_spec items).2 t ht
    subst hte
    refine ⟨List.mem_map.mpr ⟨t, hmem, rfl⟩, ?_⟩
    intro u hu
    obtain ⟨w, hw, hwe⟩ := List.mem_map.mp hu
    subst hwe
    exact hbound w hw

/-- Witness for C8: the oldest timestamp of a one-task snapshot is that
task's creation timestamp. -/
theorem get_stats_correct_witness :
    (5 : Nat) ∈
      ([⟨1, ['t'], [], false, 5, 6, [], .Medium⟩] : List Task).map
        Task.created_at ∧
    ∀ u ∈ ([⟨1, ['t'], [], false, 5, 6, [], .Medium⟩] : List Task).map
        Task.created_at, 5 ≤ u := by
  obtain ⟨-, -, -, -, -, -, -, -, -, h10, -, -⟩ :=
    get_stats_correct [⟨1, ['t'], [], false, 5, 6, [], .Medium⟩]
  exact h10 5 (by decide)

/-! ### Multipart file import (`src/handlers/task_handler.rs`,
`import_tasks_file`) -/

/-- First index of `pat` inside a string (model of `str::find`, in
characters; coincides with byte indices on ASCII data). -/
def findSubIdx (pat : Str) : Str → Option Nat
  | [] => if pat = [] then some 0 else none
  | c :: rest =>
    if hasPfx pat (c :: rest) then some 0
    else (findSubIdx pat rest).map (· + 1)

/-- Model of `str::contains`. -/
def containsSub (s pat : Str) : Bool := (findSubIdx pat s).isSome

/-- Model of `str::trim_end_matches` with a single-character pattern:
removes every trailing occurrence. -/
def trimEndAll (c : Char) (s : Str) : Str :=
  (s.reverse.dropWhile (fun d => d == c)).reverse

/-- Prepend a character to the first piece of a split. -/
def consHead (c : Char) : List Str → List Str
  | [] => [[c]]
  | hd :: tl => (c :: hd) :: tl

/-- Fuel-driven worker for `splitOnList`; the fuel strictly exceeds the
remaining string length on every call reached from `splitOnList`. -/
def splitOnFuel (sep : Str) : Nat → Str → List Str
  | 0, s => [s]
  | fuel + 1, s =>
    if sep ≠ [] ∧ hasPfx sep s then
      [] :: splitOnFuel sep fuel (s.drop sep.length)
    else
      match s with
      | [] => [[]]
      | c :: rest => consHead c (splitOnFuel sep fuel rest)

/-- Model of `str::split` with a non-empty literal pattern:
non-overlapping, left to right. -/
def splitOnList (sep s : Str) : List Str :=
  splitOnFuel sep (s.length + 1) s

/-- Boundary extraction from the content-type header: the suffix after
the first "boundary=", empty when the key is absent. -/
def boundaryOf (ct : Str) : Str :=
  match findSubIdx "boundary=".toList ct with
  | some i => ct.drop (i + 9)
  | none => []

/-- Outcome of `import_tasks_file` up to extraction of the file part. -/
inductive ImportFileOut
  | tooLarge
  | badRequest (msg : String)
  | extracted (content : Str)
deriving DecidableEq

/-- The part-selection loop of `import_tasks_file`: skip blank or "--"
parts, pick the first part containing `name="file"` that has a CRLFCRLF
separator, return its sub-payload with all trailing carriage returns and
then all trailing newlines removed. -/
def findFilePart : List Str → Option Str
  | [] => none
  | p :: rest =>
    if trimStr p = [] ∨ trimStr p = ['-', '-'] then findFilePart rest
    else if containsSub p "name=\"file\"".toList then
      match findSubIdx "\r\n\r\n".toList p with
      | some i => some (trimEndAll '\n' (trimEndAll '\r' (p.drop (i + 4))))
      | none => findFilePart rest
    else findFilePart rest

/-- Embedding of `import_tasks_file` up to extraction of the file part's
content (the subsequent CSV parsing and batch insertion reuse the
machinery already modelled for the unified import).  The body is the
decoded UTF-8 text; `byteLen` models the byte-level size check performed
before any parsing. -/
def import_tasks_file_extract (ct body : Str) : ImportFileOut :=
  if byteLen body > 5 * 1024 * 1024 then .tooLarge
  else if containsSub ct "multipart/form-data".toList = false ∨
      boundaryOf ct = [] then
    .badRequest "expected multipart/form-data with boundary"
  else
    match findFilePart
        (splitOnList (['-', '-'] ++ trimStr (boundaryOf ct)) body) with
    | some c => .extracted c
    | none => .badRequest "file part not found"

/-- Following the claim's words, for comparison: remove one single
trailing line terminator (one CRLF, else one LF). -/
def trimSingleTerminator (s : Str) : Str :=
  if hasSfx ['\r', '\n'] s then s.take (s.length - 2)
  else if hasSfx ['\n'] s then s.take (s.length - 1)
  else s

theorem findFilePart_spec : ∀ (parts : List Str) (c : Str),
    findFilePart parts = some c →
    ∃ p ∈ parts,
      ¬ (trimStr p = [] ∨ trimStr p = ['-', '-']) ∧
      containsSub p "name=\"file\"".toList = true ∧
      ∃ i, findSubIdx "\r\n\r\n".toList p = some i ∧
        c = trimEndAll '\n' (trimEndAll '\r' (p.drop (i + 4))) := by
  intro parts
  induction parts with
  | nil =>
    intro c h
    simp [findFilePart] at h
  | cons p rest ih =>
    intro c h
    simp only [findFilePart] at h
    by_cases h1 : trimStr p = [] ∨ trimStr p = ['-', '-']
    · rw [if_pos h1] at h
      obtain ⟨q, hq, hrest⟩ := ih c h
      exact ⟨q, List.mem_cons_of_mem _ hq, hrest⟩
    · rw [if_neg h1] at h
      by_cases h2 : containsSub p "name=\"file\"".toList = true
      · rw [if_pos h2] at h
        cases hidx : findSubIdx "\r\n\r\n".toList p with
        | some i =>
          rw [hidx] at h
          injection h with h
          exact ⟨p, List.mem_cons_self _ _, h1, h2, i, hidx, h.symm⟩
        | none =>
          rw [hidx] at h
          obtain ⟨q, hq, hrest⟩ := ih c h
          exact ⟨q, List.mem_cons_of_mem _ hq, hrest⟩
      · rw [if_neg h2] at h
        obtain ⟨q, hq, hrest⟩ := ih c h
        exact ⟨q, List.mem_cons_of_mem _ hq, hrest⟩

/-! ### Claim C9: multipart import pipeline -/

/-- C9 counterexample: with a file part whose raw sub-payload is "A\n\n",
the code extracts "A" (it removes all trailing carriage returns, then all
trailing newlines), while trimming a single trailing line terminator, as
the claim states, would yield "A\n". -/
theorem import_file_single_trim_counterexample :
    import_tasks_file_extract
        "multipart/form-data; boundary=B".toList
        (String.toList
          "--B\r\nContent-Disposition: form-data; name=\"file\"\r\n\r\nA\n\n--B--") =
      .extracted "A".toList ∧
    (splitOnList "--B".toList
        (String.toList
          "--B\r\nContent-Disposition: form-data; name=\"file\"\r\n\r\nA\n\n--B--")).getD
        1 [] =
      String.toList
        "\r\nContent-Disposition: form-data; name=\"file\"\r\n\r\nA\n\n" ∧
    (findSubIdx "\r\n\r\n".toList
        (String.toList
          "\r\nContent-Disposition: form-data; name=\"file\"\r\n\r\nA\n\n")).map
        (fun i =>
          (String.toList
            "\r\nContent-Disposition: form-data; name=\"file\"\r\n\r\nA\n\n").drop
            (i + 4)) =
      some "A\n\n".toList ∧
    trimSingleTerminator "A\n\n".toList = "A\n".toList ∧
    "A".toList ≠ "A\n".toList := by
  decide

/-- C9 (amended): the multipart import rejects oversize payloads before
any parsing, fails the whole request when the content-type is not
multipart or carries no boundary, splits the body on the boundary marker,
fails the whole request when no qualifying file part exists, and when one
does, extracts the sub-payload following the first CRLFCRLF separator of
the first part naming the file field, removing all trailing carriage
returns and then all trailing newlines (not a single line terminator). -/
theorem import_file_pipeline (ct body : Str) :
    (byteLen body > 5 * 1024 * 1024 →
      import_tasks_file_extract ct body = .tooLarge) ∧
    (byteLen body ≤ 5 * 1024 * 1024 →
      containsSub ct "multipart/form-data".toList = false ∨
        boundaryOf ct = [] →
      import_tasks_file_extract ct body =
        .badRequest "expected multipart/form-data with boundary") ∧
    (byteLen body ≤ 5 * 1024 * 1024 →
      containsSub ct "multipart/form-data".toList = true →
      boundaryOf ct ≠ [] →
      findFilePart
        (splitOnList (['-', '-'] ++ trimStr (boundaryOf ct)) body) = none →
      import_tasks_file_extract ct body =
        .badRequest "file part not found") ∧
    (∀ c, byteLen body ≤ 5 * 1024 * 1024 →
      containsSub ct "multipart/form-data".toList = true →
      boundaryOf ct ≠ [] →
      findFilePart
        (splitOnList (['-', '-'] ++ trimStr (boundaryOf ct)) body) = some c →
      import_tasks_file_extract ct body = .extracted c) ∧
    (∀ parts c, findFilePart parts = some c →
      ∃ p ∈ parts,
        ¬ (trimStr p = [] ∨ trimStr p = ['-', '-']) ∧
        containsSub p "name=\"file\"".toList = true ∧
        ∃ i, findSubIdx "\r\n\r\n".toList p = some i ∧
          c = trimEndAll '\n' (trimEndAll '\r' (p.drop (i + 4)))) := by
  refine ⟨?_, ?_, ?_, ?_, findFilePart_spec⟩
  · intro h
    unfold import_tasks_file_extract
    rw [if_pos h]
  · intro h1 h2
    have hn : ¬ byteLen body > 5 * 1024 * 1024 := by omega
    unfold import_tasks_file_extract
    rw [if_neg hn, if_pos h2]
  · intro h1 h2 h3 hfind
    have hn : ¬ byteLen body > 5 * 1024 * 1024 := by omega
    have hc : ¬ (containsSub ct "multipart/form-data".toList = false ∨
        boundaryOf ct = []) := by
      intro hor
      rcases hor with hor | hor
      · rw [h2] at hor
        exact Bool.noConfusion hor
      · exact h3 hor
    unfold import_tasks_file_extract
    rw [if_neg hn, if_neg hc, hfind]
  · intro c h1 h2 h3 hfind
    have hn : ¬ byteLen body > 5 * 1024 * 1024 := by omega
    have hc : ¬ (containsSub ct "multipart/form-data".toList = false ∨
        boundaryOf ct = []) := by
      intro hor
      rcases hor with hor | hor
      · rw [h2] at hor
        exact Bool.noConfusion hor
      · exact h3 hor
    unfold import_tasks_file_extract
    rw [if_neg hn, if_neg hc, hfind]

/-- Witness for C9 (amended): a non-multipart content-type is rejected
whole. -/
theorem import_file_pipeline_witness :
    import_tasks_file_extract "text/plain".toList ['x'] =
      .badRequest "expected multipart/form-data with boundary" :=
  (import_file_pipeline "text/plain".toList ['x']).2.1 (by decide)
    (Or.inl (by decide))

end RustApiHub
